import Mathlib

/-!
Shallow embedding of the Tank-Firmware-V2 motion core
(src/RobotController: Motor.cpp, MotionMotors.cpp, Telemetry.cpp,
NonBlockingDelay.cpp) and proofs about the claims of the spec.

Modelling conventions:
* `uint8_t` powers and step counters are `Nat`; in every reachable state
  used by the claims they stay far below 256, so no wraparound is dropped.
* `unsigned long` (32-bit) timestamps are `Nat`; every subtraction the
  source performs on them is modelled by `usub32`, the exact unsigned
  32-bit subtraction `(a - b) mod 2^32`.
* `float` values are modelled as exact rationals.  The stored
  calibration is the exact value of a binary32 float in [0,1].  In
  `uint8_t calibratedPower = power * _calibration` the operands convert
  to float exactly (power ≤ 255) and the single multiplication rounds
  to nearest, ties to even, at 24-bit precision — modelled exactly by
  `roundF32` — before the truncating `uint8_t` cast.  This rounding can
  carry the product up across an integer boundary, so the magnitude is
  not always the exact floor of the product.  The ramp intermediate
  power `uint8_t p = targetPower * ((float)step/total)` is modelled by
  the exact natural division `(targetPower * step) / total`; the
  theorems that evaluate intermediate powers do so at concrete inputs
  where the float and exact computations coincide (total = 10,
  calibration 1).
* Logging (Logger) and the telemetry notification hooks
  (MotionMotors::updateTelemetry) mutate no motor state and are omitted
  from the motor model; Telemetry itself is modelled separately.
* Hardware writes (Motor::applyPower, i.e. analogWrite on the two pins)
  are modelled as emitted `Actuation` events: each control operation
  returns the successor state together with the list of (forward
  magnitude, backward magnitude) pairs it wrote, in program order.
-/

namespace Tank

/-- MotorDirection enum from Motor.h. -/
inductive MotorDirection where
  | forward
  | backward
  | stopped
deriving DecidableEq

/-- Which of the two motor channels an actuation went to. -/
inductive Side where
  | left
  | right
deriving DecidableEq

/-- One hardware write: Motor::applyPower(forwardPower, backwardPower)
on a given channel. -/
structure Actuation where
  side : Side
  fwd : Nat
  bwd : Nat
deriving DecidableEq

/-- Unsigned 32-bit subtraction `(a - b) mod 2^32`, the operation the
source performs on `unsigned long` millisecond timestamps. -/
def usub32 (a b : Nat) : Nat :=
  (a % 2 ^ 32 + 2 ^ 32 - b % 2 ^ 32) % 2 ^ 32

/-- Arduino constrain(calibration, 0.0, 1.0) from Motor.cpp. -/
def constrain01 (c : ℚ) : ℚ :=
  if c < 0 then 0 else if 1 < c then 1 else c

/-- Round a rational to the nearest integer multiple of 2^g, ties to
even — the rounding step of an IEEE-754 operation at grid exponent g. -/
def roundAtGrid (q : ℚ) (g : ℤ) : ℚ :=
  let x := q / 2 ^ g
  let n := ⌊x⌋
  let frac := x - (n : ℚ)
  let r : ℤ := if frac < 1 / 2 then n
               else if 1 / 2 < frac then n + 1
               else if n % 2 = 0 then n else n + 1
  (r : ℚ) * 2 ^ g

/-- Round to nearest, ties to even, at binary32 precision: the grid
exponent is the floor base-2 logarithm minus 23, clamped below at the
subnormal grid exponent -126 - 23 = -149.  Overflow (|q| ≥ 2^128)
cannot arise for the products this development evaluates, so it is not
modelled. -/
def roundF32 (q : ℚ) : ℚ :=
  if q = 0 then 0
  else if q < 0 then -roundAtGrid (-q) (max (Int.log 2 (-q)) (-126) - 23)
  else roundAtGrid q (max (Int.log 2 q) (-126) - 23)

/-- The line `uint8_t calibratedPower = power * _calibration` from
Motor.cpp: the operands convert to float exactly (power ≤ 255 and a
stored float calibration), the single-precision multiplication rounds
to nearest (ties to even), and the `uint8_t` cast truncates toward
zero, which is the floor for the non-negative clamped calibration. -/
def calibratedPower (power : Nat) (c : ℚ) : Nat :=
  (⌊roundF32 ((power : ℚ) * c)⌋).toNat

/-- One motor channel (class Motor).  The pin numbers only tag the
hardware sink and are represented by the channel `Side` at the
MotionMotors level; `_lastReportedDirection/_lastReportedPower` only
gate log output and are omitted. -/
structure Motor where
  direction : MotorDirection
  power : Nat
  calibration : ℚ
deriving DecidableEq

/-- Motor constructor (Motor.cpp lines 3-11). -/
def Motor.init (c : ℚ) : Motor :=
  { direction := .stopped, power := 0, calibration := constrain01 c }

/-- Motor::forward: sets state and writes (calibratedPower, 0). -/
def Motor.forward (m : Motor) (power : Nat) : Motor × (Nat × Nat) :=
  ({ m with direction := .forward, power := power },
   (calibratedPower power m.calibration, 0))

/-- Motor::backward: sets state and writes (0, calibratedPower). -/
def Motor.backward (m : Motor) (power : Nat) : Motor × (Nat × Nat) :=
  ({ m with direction := .backward, power := power },
   (0, calibratedPower power m.calibration))

/-- Motor::stop: sets state and writes (0, 0). -/
def Motor.stop (m : Motor) : Motor × (Nat × Nat) :=
  ({ m with direction := .stopped, power := 0 }, (0, 0))

/-- The pattern `if (dir == MOTOR_FORWARD) forward else if
(dir == MOTOR_BACKWARD) backward` shared by smoothAccelerate and
smoothDecelerate (non-smooth branches) and updateAcceleration: a Stopped
direction drives nothing. -/
def driveDir (m : Motor) (dir : MotorDirection) (power : Nat) :
    Motor × List (Nat × Nat) :=
  match dir with
  | .forward => ((m.forward power).1, [(m.forward power).2])
  | .backward => ((m.backward power).1, [(m.backward power).2])
  | .stopped => (m, [])

/-- SMOOTH_ACCEL_STEPS from MotionMotors.h line 10. -/
def SMOOTH_ACCEL_STEPS : Nat := 10

/-- SMOOTH_ACCEL_DELAY (ms) from MotionMotors.h line 11. -/
def SMOOTH_ACCEL_DELAY : Nat := 20

/-- The MotionMotors ramp-engine state (MotionMotors.h lines 51-67). -/
structure MotionMotors where
  leftMotor : Motor
  rightMotor : Motor
  smoothEnabled : Bool
  lastAccelUpdateTime : Nat
  currentAccelStep : Nat
  totalAccelSteps : Nat
  isAccelerating : Bool
  leftTargetDirection : MotorDirection
  rightTargetDirection : MotorDirection
  leftTargetPower : Nat
  rightTargetPower : Nat
deriving DecidableEq

/-- MotionMotors constructor (MotionMotors.cpp lines 4-18);
DEFAULT_SMOOTH_ENABLED is true. -/
def MotionMotors.init (leftCal rightCal : ℚ) : MotionMotors :=
  { leftMotor := Motor.init leftCal
    rightMotor := Motor.init rightCal
    smoothEnabled := true
    lastAccelUpdateTime := 0
    currentAccelStep := 0
    totalAccelSteps := 0
    isAccelerating := false
    leftTargetDirection := .stopped
    rightTargetDirection := .stopped
    leftTargetPower := 0
    rightTargetPower := 0 }

/-- Read the motor of a channel (`&motor == &_leftMotor` dispatch). -/
def MotionMotors.motorOf (s : MotionMotors) : Side → Motor
  | .left => s.leftMotor
  | .right => s.rightMotor

/-- Write back the motor of a channel. -/
def MotionMotors.setMotor (s : MotionMotors) : Side → Motor → MotionMotors
  | .left, m => { s with leftMotor := m }
  | .right, m => { s with rightMotor := m }

/-- Tag a raw (fwd, bwd) write with its channel. -/
def tag (side : Side) (e : Nat × Nat) : Actuation :=
  { side := side, fwd := e.1, bwd := e.2 }

/-- The target-setup block shared verbatim by smoothAccelerate /
smoothDecelerate / smoothTransition (MotionMotors.cpp lines 274-284,
309-319, 353-363): the addressed channel gets (dir, power), the other
target of the other channel is forced to (Stopped, 0). -/
def MotionMotors.setTargets (s : MotionMotors) (side : Side)
    (dir : MotorDirection) (power : Nat) : MotionMotors :=
  match side with
  | .left =>
    { s with leftTargetDirection := dir, leftTargetPower := power,
             rightTargetDirection := .stopped, rightTargetPower := 0 }
  | .right =>
    { s with leftTargetDirection := .stopped, leftTargetPower := 0,
             rightTargetDirection := dir, rightTargetPower := power }

/-- MotionMotors::smoothAccelerate (MotionMotors.cpp lines 260-291).
`steps` is `params.steps` (the default call sites pass
SMOOTH_ACCEL_STEPS; `params.delayMs` is never read by the source). -/
def MotionMotors.smoothAccelerate (s : MotionMotors) (side : Side)
    (direction : MotorDirection) (targetPower : Nat) (steps : Nat)
    (now : Nat) : MotionMotors × List Actuation :=
  if s.smoothEnabled = false then
    let r := driveDir (s.motorOf side) direction targetPower
    (s.setMotor side r.1, r.2.map (tag side))
  else
    let s := s.setTargets side direction targetPower
    ({ s with currentAccelStep := 0, totalAccelSteps := steps,
              lastAccelUpdateTime := now, isAccelerating := true }, [])

/-- MotionMotors::smoothDecelerate (MotionMotors.cpp lines 293-326).
With target 0 the non-smooth branch stops the motor and the smooth
branch records a Stopped target direction. -/
def MotionMotors.smoothDecelerate (s : MotionMotors) (side : Side)
    (direction : MotorDirection) (targetPower : Nat) (steps : Nat)
    (now : Nat) : MotionMotors × List Actuation :=
  if s.smoothEnabled = false then
    if targetPower = 0 then
      let r := (s.motorOf side).stop
      (s.setMotor side r.1, [tag side r.2])
    else
      let r := driveDir (s.motorOf side) direction targetPower
      (s.setMotor side r.1, r.2.map (tag side))
  else
    let dir := if targetPower = 0 then MotorDirection.stopped else direction
    let s := s.setTargets side dir targetPower
    ({ s with currentAccelStep := 0, totalAccelSteps := steps,
              lastAccelUpdateTime := now, isAccelerating := true }, [])

/-- MotionMotors::smoothTransition (MotionMotors.cpp lines 328-370).
When the channel is moving in a different non-stopped direction the
source stops the motor and does `_totalAccelSteps += 2`
("Add extra steps for the pause"), but lines 365-366 then overwrite
`_currentAccelStep = 0; _totalAccelSteps = params.steps;`
unconditionally, so the inflation does not survive the call. -/
def MotionMotors.smoothTransition (s : MotionMotors) (side : Side)
    (newDirection : MotorDirection) (targetPower : Nat) (steps : Nat)
    (now : Nat) : MotionMotors × List Actuation :=
  if s.smoothEnabled = false then
    match newDirection with
    | .stopped =>
      let r := (s.motorOf side).stop
      (s.setMotor side r.1, [tag side r.2])
    | _ =>
      let r := driveDir (s.motorOf side) newDirection targetPower
      (s.setMotor side r.1, r.2.map (tag side))
  else
    let m := s.motorOf side
    let pre :
        MotionMotors × List Actuation :=
      if m.direction ≠ .stopped ∧ m.direction ≠ newDirection then
        let r := m.stop
        let s0 := s.setMotor side r.1
        ({ s0 with currentAccelStep := 0,
                   totalAccelSteps := s.totalAccelSteps + 2 },
         [tag side r.2])
      else
        (s, [])
    let s1 := (pre.1.setTargets side newDirection targetPower)
    ({ s1 with currentAccelStep := 0, totalAccelSteps := steps,
               lastAccelUpdateTime := now, isAccelerating := true },
     pre.2)

/-- MotionMotors::updateAcceleration (MotionMotors.cpp lines 175-242),
the poll that advances an in-progress ramp.  `now` is the `millis()`
value; the elapsed-time gate is the unsigned 32-bit subtraction of the
source.  The intermediate power `_targetPower * ((float)step/total)`
truncated to `uint8_t` is the exact `(targetPower * step) / total`
(see the header comment). -/
def MotionMotors.updateAcceleration (s : MotionMotors) (now : Nat) :
    MotionMotors × List Actuation :=
  if s.isAccelerating = false ∨ s.smoothEnabled = false then
    (s, [])
  else if usub32 now s.lastAccelUpdateTime < SMOOTH_ACCEL_DELAY then
    (s, [])
  else
    let step := s.currentAccelStep + 1
    let s := { s with lastAccelUpdateTime := now, currentAccelStep := step }
    if s.totalAccelSteps ≤ step then
      let l := driveDir s.leftMotor s.leftTargetDirection s.leftTargetPower
      let r := driveDir s.rightMotor s.rightTargetDirection s.rightTargetPower
      ({ s with leftMotor := l.1, rightMotor := r.1,
                isAccelerating := false },
       l.2.map (tag .left) ++ r.2.map (tag .right))
    else
      let lp := s.leftTargetPower * step / s.totalAccelSteps
      let rp := s.rightTargetPower * step / s.totalAccelSteps
      let l := driveDir s.leftMotor s.leftTargetDirection lp
      let r := driveDir s.rightMotor s.rightTargetDirection rp
      ({ s with leftMotor := l.1, rightMotor := r.1 },
       l.2.map (tag .left) ++ r.2.map (tag .right))

/-- MotionMotors::leftForward (MotionMotors.cpp lines 30-48). -/
def MotionMotors.leftForward (s : MotionMotors) (power : Nat)
    (smooth : Bool) (now : Nat) : MotionMotors × List Actuation :=
  if smooth = true ∧ s.smoothEnabled = true then
    if s.leftMotor.direction = .forward then
      if s.leftMotor.power < power then
        s.smoothAccelerate .left .forward power SMOOTH_ACCEL_STEPS now
      else if power < s.leftMotor.power then
        s.smoothDecelerate .left .forward power SMOOTH_ACCEL_STEPS now
      else (s, [])
    else
      s.smoothTransition .left .forward power SMOOTH_ACCEL_STEPS now
  else
    let r := s.leftMotor.forward power
    ({ s with leftMotor := r.1 }, [tag .left r.2])

/-- MotionMotors::leftBackward (MotionMotors.cpp lines 50-68). -/
def MotionMotors.leftBackward (s : MotionMotors) (power : Nat)
    (smooth : Bool) (now : Nat) : MotionMotors × List Actuation :=
  if smooth = true ∧ s.smoothEnabled = true then
    if s.leftMotor.direction = .backward then
      if s.leftMotor.power < power then
        s.smoothAccelerate .left .backward power SMOOTH_ACCEL_STEPS now
      else if power < s.leftMotor.power then
        s.smoothDecelerate .left .backward power SMOOTH_ACCEL_STEPS now
      else (s, [])
    else
      s.smoothTransition .left .backward power SMOOTH_ACCEL_STEPS now
  else
    let r := s.leftMotor.backward power
    ({ s with leftMotor := r.1 }, [tag .left r.2])

/-- MotionMotors::rightForward (MotionMotors.cpp lines 70-88). -/
def MotionMotors.rightForward (s : MotionMotors) (power : Nat)
    (smooth : Bool) (now : Nat) : MotionMotors × List Actuation :=
  if smooth = true ∧ s.smoothEnabled = true then
    if s.rightMotor.direction = .forward then
      if s.rightMotor.power < power then
        s.smoothAccelerate .right .forward power SMOOTH_ACCEL_STEPS now
      else if power < s.rightMotor.power then
        s.smoothDecelerate .right .forward power SMOOTH_ACCEL_STEPS now
      else (s, [])
    else
      s.smoothTransition .right .forward power SMOOTH_ACCEL_STEPS now
  else
    let r := s.rightMotor.forward power
    ({ s with rightMotor := r.1 }, [tag .right r.2])

/-- MotionMotors::rightBackward (MotionMotors.cpp lines 90-108). -/
def MotionMotors.rightBackward (s : MotionMotors) (power : Nat)
    (smooth : Bool) (now : Nat) : MotionMotors × List Actuation :=
  if smooth = true ∧ s.smoothEnabled = true then
    if s.rightMotor.direction = .backward then
      if s.rightMotor.power < power then
        s.smoothAccelerate .right .backward power SMOOTH_ACCEL_STEPS now
      else if power < s.rightMotor.power then
        s.smoothDecelerate .right .backward power SMOOTH_ACCEL_STEPS now
      else (s, [])
    else
      s.smoothTransition .right .backward power SMOOTH_ACCEL_STEPS now
  else
    let r := s.rightMotor.backward power
    ({ s with rightMotor := r.1 }, [tag .right r.2])

/-- MotionMotors::leftStop (MotionMotors.cpp lines 110-119). -/
def MotionMotors.leftStop (s : MotionMotors) (now : Nat) :
    MotionMotors × List Actuation :=
  if s.smoothEnabled = true ∧ 0 < s.leftMotor.power then
    s.smoothDecelerate .left s.leftMotor.direction 0 SMOOTH_ACCEL_STEPS now
  else
    let r := s.leftMotor.stop
    ({ s with leftMotor := r.1 }, [tag .left r.2])

/-- MotionMotors::rightStop (MotionMotors.cpp lines 121-130). -/
def MotionMotors.rightStop (s : MotionMotors) (now : Nat) :
    MotionMotors × List Actuation :=
  if s.smoothEnabled = true ∧ 0 < s.rightMotor.power then
    s.smoothDecelerate .right s.rightMotor.direction 0 SMOOTH_ACCEL_STEPS now
  else
    let r := s.rightMotor.stop
    ({ s with rightMotor := r.1 }, [tag .right r.2])

/-- MotionMotors::stop, the stop-all entry point (MotionMotors.cpp
lines 132-139): leftStop, rightStop, then `_isAccelerating = false`. -/
def MotionMotors.stop (s : MotionMotors) (now : Nat) :
    MotionMotors × List Actuation :=
  let l := s.leftStop now
  let r := l.1.rightStop now
  ({ r.1 with isAccelerating := false }, l.2 ++ r.2)

/-- MotionMotors::setSmoothEnabled (MotionMotors.cpp lines 141-145). -/
def MotionMotors.setSmoothEnabled (s : MotionMotors) (enable : Bool) :
    MotionMotors :=
  { s with smoothEnabled := enable }

/-- A public control call on the ramp engine, paired with the millis()
value at which it happens when run. -/
inductive Cmd where
  | leftForward (power : Nat) (smooth : Bool)
  | leftBackward (power : Nat) (smooth : Bool)
  | rightForward (power : Nat) (smooth : Bool)
  | rightBackward (power : Nat) (smooth : Bool)
  | leftStop
  | rightStop
  | stopAll
  | setSmoothEnabled (enable : Bool)
  | poll

/-- Dispatch one command at one time. -/
def stepCmd (s : MotionMotors) (c : Cmd) (now : Nat) :
    MotionMotors × List Actuation :=
  match c with
  | .leftForward p sm => s.leftForward p sm now
  | .leftBackward p sm => s.leftBackward p sm now
  | .rightForward p sm => s.rightForward p sm now
  | .rightBackward p sm => s.rightBackward p sm now
  | .leftStop => s.leftStop now
  | .rightStop => s.rightStop now
  | .stopAll => s.stop now
  | .setSmoothEnabled b => (s.setSmoothEnabled b, [])
  | .poll => s.updateAcceleration now

/-- Run a sequence of timed commands, concatenating the actuation
traces in program order. -/
def run (s : MotionMotors) : List (Cmd × Nat) → MotionMotors × List Actuation
  | [] => (s, [])
  | c :: cs =>
    let r := stepCmd s c.1 c.2
    let rest := run r.1 cs
    (rest.1, r.2 ++ rest.2)

/-- Run a sequence of polls (updateAcceleration at the given times),
collecting the trace. -/
def runPolls (s : MotionMotors) : List Nat → MotionMotors × List Actuation
  | [] => (s, [])
  | t :: ts =>
    let r := s.updateAcceleration t
    let rest := runPolls r.1 ts
    (rest.1, r.2 ++ rest.2)

/-- The TelemetryData snapshot (Telemetry.h).  `batteryVoltage` is only
written under `#ifdef BATTERY_PIN`, which this firmware does not
define, so update copies it unchanged. -/
structure TelemetryData where
  leftMotorPower : Nat
  rightMotorPower : Nat
  leftMotorForward : Bool
  rightMotorForward : Bool
  leftCalibration : ℚ
  rightCalibration : ℚ
  batteryVoltage : ℚ
  isAccelerating : Bool
  smoothEnabled : Bool
  timestamp : Nat
deriving DecidableEq

/-- The Telemetry class statics (Telemetry.cpp lines 4-8). -/
structure TelemetryState where
  data : TelemetryData
  lastSendTime : Nat
  interval : Nat
  enabled : Bool
  dataChanged : Bool
deriving DecidableEq

/-- The candidate fields passed to Telemetry::update. -/
structure TelemetryArgs where
  leftPower : Nat
  rightPower : Nat
  leftForward : Bool
  rightForward : Bool
  leftCal : ℚ
  rightCal : ℚ
  accel : Bool
  smooth : Bool
deriving DecidableEq

/-- Telemetry::update (Telemetry.cpp lines 42-76): compares the eight
candidate fields to the stored snapshot; on any difference it installs
the candidate, stamps `timestamp = millis()` and raises `_dataChanged`;
otherwise it does nothing. -/
def Telemetry.update (s : TelemetryState) (a : TelemetryArgs) (now : Nat) :
    TelemetryState :=
  if s.data.leftMotorPower ≠ a.leftPower ∨
     s.data.rightMotorPower ≠ a.rightPower ∨
     s.data.leftMotorForward ≠ a.leftForward ∨
     s.data.rightMotorForward ≠ a.rightForward ∨
     s.data.leftCalibration ≠ a.leftCal ∨
     s.data.rightCalibration ≠ a.rightCal ∨
     s.data.isAccelerating ≠ a.accel ∨
     s.data.smoothEnabled ≠ a.smooth then
    { s with
      data := { s.data with
        leftMotorPower := a.leftPower,
        rightMotorPower := a.rightPower,
        leftMotorForward := a.leftForward,
        rightMotorForward := a.rightForward,
        leftCalibration := a.leftCal,
        rightCalibration := a.rightCal,
        isAccelerating := a.accel,
        smoothEnabled := a.smooth,
        timestamp := now },
      dataChanged := true }
  else s

/-- Telemetry::send (Telemetry.cpp lines 85-136): returns the possibly
updated statics and `some record` exactly when a record is emitted on
the serial sink.  The record is the stored snapshot `_data`. -/
def Telemetry.send (s : TelemetryState) (now : Nat) :
    TelemetryState × Option TelemetryData :=
  if s.enabled = false then
    (s, none)
  else if s.interval ≤ usub32 now s.lastSendTime ∧ s.dataChanged = true then
    ({ s with lastSendTime := now, dataChanged := false }, some s.data)
  else
    (s, none)

/-- The NonBlockingDelay timer state (NonBlockingDelay.h). -/
structure NonBlockingDelay where
  delayTime : Nat
  startTime : Nat
  running : Bool
deriving DecidableEq

/-- NonBlockingDelay::elapsed (NonBlockingDelay.cpp lines 36-51). -/
def NonBlockingDelay.elapsed (d : NonBlockingDelay) (now : Nat) :
    NonBlockingDelay × Bool :=
  if d.running = false then (d, true)
  else if d.delayTime ≤ usub32 now d.startTime then
    ({ d with running := false }, true)
  else (d, false)

/-- The reversal-safety property of one channel as the spec states it: between
any forward actuation and any later backward actuation on the channel
there is a strictly intermediate all-zero (stop) actuation on it. -/
def stopsBetweenReversals (tr : List Actuation) (side : Side) : Prop :=
  ∀ i j : Fin tr.length, i < j →
    (tr.get i).side = side → (tr.get j).side = side →
    (tr.get i).fwd ≠ 0 → (tr.get j).bwd ≠ 0 →
    ∃ k : Fin tr.length, i < (k : Nat) ∧ (k : Nat) < j ∧
      (tr.get k).side = side ∧ (tr.get k).fwd = 0 ∧ (tr.get k).bwd = 0

/-! ### Helper lemmas -/

/-- Helper: a rational that is an integer multiple of the grid rounds
to itself. -/
theorem roundAtGrid_int_mul (k : ℤ) (g : ℤ) :
    roundAtGrid ((k : ℚ) * 2 ^ g) g = (k : ℚ) * 2 ^ g := by
  have h2 : ((2 : ℚ) ^ g) ≠ 0 := zpow_ne_zero g two_ne_zero
  have hx : (k : ℚ) * 2 ^ g / 2 ^ g = (k : ℚ) := by
    rw [mul_div_assoc, div_self h2, mul_one]
  simp [roundAtGrid, hx]

/-- Helper: the rounded value is the floor or the ceiling grid point. -/
theorem roundAtGrid_mem (q : ℚ) (g : ℤ) :
    roundAtGrid q g = (⌊q / 2 ^ g⌋ : ℚ) * 2 ^ g ∨
    roundAtGrid q g = ((⌊q / 2 ^ g⌋ : ℚ) + 1) * 2 ^ g := by
  simp only [roundAtGrid]
  split_ifs <;> simp

/-- Helper: rounding moves a value up by at most one grid spacing. -/
theorem roundAtGrid_le (q : ℚ) (g : ℤ) : roundAtGrid q g ≤ q + 2 ^ g := by
  have h2 : (0 : ℚ) < 2 ^ g := zpow_pos (by norm_num) g
  have hq : q / 2 ^ g * 2 ^ g = q := div_mul_cancel₀ q (ne_of_gt h2)
  rcases roundAtGrid_mem q g with h | h <;> rw [h]
  · calc (⌊q / 2 ^ g⌋ : ℚ) * 2 ^ g ≤ q / 2 ^ g * 2 ^ g :=
          mul_le_mul_of_nonneg_right (Int.floor_le _) h2.le
      _ = q := hq
      _ ≤ q + 2 ^ g := by linarith
  · calc ((⌊q / 2 ^ g⌋ : ℚ) + 1) * 2 ^ g ≤ (q / 2 ^ g + 1) * 2 ^ g := by
          apply mul_le_mul_of_nonneg_right _ h2.le
          linarith [Int.floor_le (q / 2 ^ g)]
      _ = q + 2 ^ g := by rw [add_mul, one_mul, hq]

/-- Helper: with a sub-unit grid, rounding never drops below an integer
that bounds the value from below (integers are on the grid). -/
theorem roundAtGrid_ge_int (m : ℤ) (q : ℚ) (g : ℤ) (hg : g ≤ 0)
    (hm : (m : ℚ) ≤ q) : (m : ℚ) ≤ roundAtGrid q g := by
  have h2 : (0 : ℚ) < 2 ^ g := zpow_pos (by norm_num) g
  set t : ℕ := (-g).toNat with ht
  have hgt : g = -(t : ℤ) := by omega
  have hpow : (2 : ℚ) ^ g = ((2 : ℚ) ^ t)⁻¹ := by
    rw [hgt, zpow_neg, zpow_natCast]
  have hxk : ((m * 2 ^ t : ℤ) : ℚ) ≤ q / 2 ^ g := by
    rw [hpow, div_eq_mul_inv, inv_inv]
    push_cast
    have : (0 : ℚ) < 2 ^ t := by positivity
    nlinarith
  have hfl : (m * 2 ^ t : ℤ) ≤ ⌊q / 2 ^ g⌋ := Int.le_floor.mpr hxk
  have hback : ((m * 2 ^ t : ℤ) : ℚ) * 2 ^ g = m := by
    push_cast
    rw [hpow]
    field_simp
  rcases roundAtGrid_mem q g with h | h <;> rw [h]
  · calc (m : ℚ) = ((m * 2 ^ t : ℤ) : ℚ) * 2 ^ g := hback.symm
      _ ≤ (⌊q / 2 ^ g⌋ : ℚ) * 2 ^ g := by
          apply mul_le_mul_of_nonneg_right _ h2.le
          exact_mod_cast hfl
  · calc (m : ℚ) = ((m * 2 ^ t : ℤ) : ℚ) * 2 ^ g := hback.symm
      _ ≤ ((⌊q / 2 ^ g⌋ : ℚ) + 1) * 2 ^ g := by
          apply mul_le_mul_of_nonneg_right _ h2.le
          have : ((m * 2 ^ t : ℤ) : ℚ) ≤ (⌊q / 2 ^ g⌋ : ℚ) := by
            exact_mod_cast hfl
          linarith

/-- Helper: below 256 the binary32 grid exponent is at most -16. -/
theorem f32_grid_le (q : ℚ) (h0 : 0 < q) (h256 : q < 256) :
    max (Int.log 2 q) (-126) - 23 ≤ -16 := by
  have hlog : Int.log 2 q < 8 := by
    rw [← Int.lt_zpow_iff_log_lt (by norm_num) h0]
    exact lt_of_lt_of_le h256 (by push_cast; norm_num)
  omega

/-- Helper: below 256, binary32 rounding adds at most one half. -/
theorem roundF32_le_half (q : ℚ) (h0 : 0 < q) (h256 : q < 256) :
    roundF32 q ≤ q + 1 / 2 := by
  have hg := f32_grid_le q h0 h256
  have hpow : (2 : ℚ) ^ (max (Int.log 2 q) (-126) - 23) ≤ 2 ^ (-1 : ℤ) := by
    apply zpow_le_zpow_right₀ (by norm_num)
    omega
  have hrw : roundF32 q = roundAtGrid q (max (Int.log 2 q) (-126) - 23) := by
    rw [roundF32, if_neg (ne_of_gt h0), if_neg (not_lt.mpr h0.le)]
  rw [hrw]
  calc roundAtGrid q (max (Int.log 2 q) (-126) - 23)
      ≤ q + 2 ^ (max (Int.log 2 q) (-126) - 23) := roundAtGrid_le q _
    _ ≤ q + 2 ^ (-1 : ℤ) := by linarith
    _ = q + 1 / 2 := by norm_num

/-- Helper: below 256, binary32 rounding never drops below the floor —
integers up to 255 lie on the grid. -/
theorem roundF32_ge_floor (q : ℚ) (h0 : 0 < q) (h256 : q < 256) :
    (⌊q⌋ : ℚ) ≤ roundF32 q := by
  have hg := f32_grid_le q h0 h256
  have hrw : roundF32 q = roundAtGrid q (max (Int.log 2 q) (-126) - 23) := by
    rw [roundF32, if_neg (ne_of_gt h0), if_neg (not_lt.mpr h0.le)]
  rw [hrw]
  exact roundAtGrid_ge_int ⌊q⌋ q _ (by omega) (Int.floor_le q)

/-- Helper: a positive dyadic rational with denominator exponent at
most 16 and value below 256 is exactly representable in binary32 and
rounds to itself. -/
theorem roundF32_dyadic (m : ℤ) (d : ℕ) (hd : d ≤ 16) (q : ℚ)
    (hq : q = (m : ℚ) / 2 ^ d) (h0 : 0 < q) (h256 : q < 256) :
    roundF32 q = q := by
  have hg := f32_grid_le q h0 h256
  set g : ℤ := max (Int.log 2 q) (-126) - 23 with hgdef
  have hrw : roundF32 q = roundAtGrid q g := by
    rw [roundF32, if_neg (ne_of_gt h0), if_neg (not_lt.mpr h0.le)]
  set t : ℕ := (-g - d).toNat with ht
  have htg : (t : ℤ) = -g - d := by
    have : (0 : ℤ) ≤ -g - d := by omega
    omega
  have hrepr : q = ((m * 2 ^ t : ℤ) : ℚ) * 2 ^ g := by
    push_cast
    rw [hq, mul_assoc, ← zpow_natCast (2 : ℚ) t, ← zpow_add₀ (two_ne_zero), htg]
    have harith : -g - (d : ℤ) + g = -(d : ℤ) := by ring
    rw [harith, zpow_neg, zpow_natCast, div_eq_mul_inv]
  rw [hrw, hrepr, roundAtGrid_int_mul]

/-- Helper: natural numbers up to 255 are exact binary32 values. -/
theorem roundF32_natCast (p : ℕ) (hp : p ≤ 255) : roundF32 (p : ℚ) = p := by
  rcases Nat.eq_zero_or_pos p with h | h
  · subst h; simp [roundF32]
  · exact roundF32_dyadic p 0 (by norm_num) _ (by push_cast; ring)
      (by exact_mod_cast h) (by exact_mod_cast lt_of_le_of_lt hp (by norm_num))

/-- With the neutral calibration 1.0 the calibrated magnitude is the
commanded power itself (the multiplication is exact for power ≤ 255). -/
theorem calibratedPower_one (p : Nat) (hp : p ≤ 255) :
    calibratedPower p 1 = p := by
  rw [calibratedPower, mul_one, roundF32_natCast p hp]
  simp

/-- Helper: the magnitude is bracketed by the exact floor and the exact
floor plus one, and never exceeds the commanded power. -/
theorem calibratedPower_bounds (p : Nat) (c : ℚ) (hp : p ≤ 255)
    (h0 : 0 ≤ c) (h1 : c ≤ 1) :
    (⌊(p : ℚ) * c⌋).toNat ≤ calibratedPower p c ∧
    calibratedPower p c ≤ (⌊(p : ℚ) * c⌋).toNat + 1 ∧
    calibratedPower p c ≤ p := by
  unfold calibratedPower
  set q : ℚ := (p : ℚ) * c with hqdef
  have hq0 : 0 ≤ q := by rw [hqdef]; positivity
  have hqp : q ≤ (p : ℚ) := by
    rw [hqdef]
    calc (p : ℚ) * c ≤ (p : ℚ) * 1 := mul_le_mul_of_nonneg_left h1 (by positivity)
      _ = (p : ℚ) := mul_one _
  have hq256 : q < 256 :=
    lt_of_le_of_lt hqp (by exact_mod_cast lt_of_le_of_lt hp (by norm_num))
  rcases eq_or_lt_of_le hq0 with hz | hpos
  · have hz' : q = 0 := hz.symm
    have hr0 : roundF32 q = 0 := by rw [hz', roundF32, if_pos rfl]
    rw [hr0, hz']
    simp
  · have hle := roundF32_le_half q hpos hq256
    have hge := roundF32_ge_floor q hpos hq256
    have hfn : (0 : ℤ) ≤ ⌊q⌋ := Int.floor_nonneg.mpr hq0
    have hlow : ⌊q⌋ ≤ ⌊roundF32 q⌋ := Int.le_floor.mpr hge
    have hup : ⌊roundF32 q⌋ ≤ ⌊q⌋ + 1 := by
      have h2 : roundF32 q < ((⌊q⌋ + 2 : ℤ) : ℚ) := by
        push_cast
        have := Int.lt_floor_add_one q
        linarith
      have := Int.floor_lt.mpr h2
      omega
    have hple : ⌊roundF32 q⌋ ≤ (p : ℤ) := by
      have h2 : roundF32 q < (((p : ℤ) + 1 : ℤ) : ℚ) := by
        push_cast
        linarith
      have := Int.floor_lt.mpr h2
      omega
    omega

/-- Unsigned 32-bit subtraction of wrapped timestamps recovers the true
elapsed time whenever it is less than 2^32. -/
theorem usub32_elapsed (t0 t1 : Nat) (hle : t0 ≤ t1)
    (hlt : t1 - t0 < 2 ^ 32) : usub32 (t1 % 2 ^ 32) (t0 % 2 ^ 32) = t1 - t0 := by
  unfold usub32
  omega

/-! ### Claim theorems -/

/-- C6 counterexample: at power 201 and calibration 16693747/2^24 — a
binary32-representable value in [0,1] (16693747 < 2^24) that the clamp
leaves unchanged — the float product 201*c equals 200 - 53/2^24, which
rounds to nearest as exactly 200.0; the truncating cast then yields
sink magnitude 200, while the floor of the exact product is 199.  So
the magnitude does not always equal the truncating floor of p*c. -/
theorem c6_floor_counterexample :
    (Motor.forward
        { direction := .stopped, power := 0,
          calibration := 16693747 / 2 ^ 24 } 201).2.1 = 200 ∧
    (⌊((201 : Nat) : ℚ) * (16693747 / 2 ^ 24)⌋).toNat = 199 ∧
    (0 : ℚ) ≤ 16693747 / 2 ^ 24 ∧ (16693747 / 2 ^ 24 : ℚ) ≤ 1 ∧
    (201 : Nat) ≤ 255 ∧ (200 : Nat) ≠ 199 := by
  have hq : ((201 : Nat) : ℚ) * (16693747 / 2 ^ 24) =
      (3355443147 : ℚ) / 2 ^ 24 := by
    push_cast
    norm_num
  have hround : roundF32 ((3355443147 : ℚ) / 2 ^ 24) = 200 := by
    set q : ℚ := (3355443147 : ℚ) / 2 ^ 24 with hqdef
    have hq0 : (0 : ℚ) < q := by rw [hqdef]; norm_num
    have hlog : Int.log 2 q = 7 := by
      have h1 : (7 : ℤ) ≤ Int.log 2 q := by
        rw [← Int.zpow_le_iff_le_log (by norm_num) hq0, hqdef]
        push_cast
        norm_num
      have h2 : Int.log 2 q < 8 := by
        rw [← Int.lt_zpow_iff_log_lt (by norm_num) hq0, hqdef]
        push_cast
        norm_num
      omega
    have hg : max (Int.log 2 q) (-126) - 23 = (-16 : ℤ) := by rw [hlog]; rfl
    have hrw : roundF32 q = roundAtGrid q (-16) := by
      rw [roundF32, if_neg (ne_of_gt hq0), if_neg (not_lt.mpr hq0.le), hg]
    have hx : q / 2 ^ (-16 : ℤ) = (3355443147 : ℚ) / 256 := by
      rw [hqdef]
      norm_num
    have hfl : ⌊(3355443147 : ℚ) / 256⌋ = 13107199 := by
      rw [Int.floor_eq_iff] <;> norm_num
    rw [hrw]
    simp only [roundAtGrid, hx, hfl]
    rw [if_neg (by norm_num), if_pos (by norm_num)]
    push_cast
    norm_num
  refine ⟨?_, ?_, by norm_num, by norm_num, by norm_num, by norm_num⟩
  · show calibratedPower 201 (16693747 / 2 ^ 24) = 200
    rw [calibratedPower, hq, hround]
    rfl
  · rw [hq]
    have hfl : ⌊(3355443147 : ℚ) / 2 ^ 24⌋ = 199 := by
      rw [Int.floor_eq_iff] <;> norm_num
    rw [hfl]
    rfl

/-- C6 amended: for power p in [0,255] and calibration c in [0,1] the
magnitude Motor::forward/backward sends to the hardware sink is the
truncation of the single-precision round-to-nearest product; it always
lies in [0,p] and equals the truncating floor of p*c or that floor plus
one (the latter exactly when float rounding carries the product up
across an integer boundary); with calibration 0.5 the product of a
commanded power 201 is exact and the magnitude is floor(201*0.5) =
100. -/
theorem c6_calibrated_power_rounded (p : Nat) (c : ℚ) (m : Motor)
    (hp : p ≤ 255) (h0 : 0 ≤ c) (h1 : c ≤ 1) (hm : m.calibration = c) :
    ((m.forward p).2 = (calibratedPower p c, 0) ∧
     (m.backward p).2 = (0, calibratedPower p c) ∧
     (⌊(p : ℚ) * c⌋).toNat ≤ calibratedPower p c ∧
     calibratedPower p c ≤ (⌊(p : ℚ) * c⌋).toNat + 1 ∧
     calibratedPower p c ≤ p) ∧
    calibratedPower 201 (1 / 2) = 100 := by
  obtain ⟨hb1, hb2, hb3⟩ := calibratedPower_bounds p c hp h0 h1
  refine ⟨⟨?_, ?_, hb1, hb2, hb3⟩, ?_⟩
  · simp [Motor.forward, hm]
  · simp [Motor.backward, hm]
  · have hqr : ((201 : Nat) : ℚ) * (1 / 2) = (201 : ℚ) / 2 ^ 1 := by norm_num
    have hr : roundF32 ((201 : ℚ) / 2 ^ 1) = (201 : ℚ) / 2 ^ 1 :=
      roundF32_dyadic 201 1 (by norm_num) _ (by push_cast; ring)
        (by norm_num) (by norm_num)
    have hfl : ⌊(201 : ℚ) / 2 ^ 1⌋ = 100 := by
      rw [Int.floor_eq_iff] <;> norm_num
    rw [calibratedPower, hqr, hr, hfl]
    rfl

/-- C6 amended witness: at p = 201, c = 1/2 on a motor calibrated to
1/2 the forward write is exactly (100, 0). -/
theorem c6_calibrated_power_rounded_witness :
    ((Motor.init (1 / 2)).forward 201).2 = (100, 0) := by
  have h := c6_calibrated_power_rounded 201 (1 / 2) (Motor.init (1 / 2))
    (by norm_num) (by norm_num) (by norm_num)
    (by simp [Motor.init, constrain01]; norm_num)
  rw [h.1.1, h.2]

/-- C9: every elapsed-time check (ramp stepper gate, telemetry publish
gate, NonBlockingDelay::elapsed) is the unsigned 32-bit subtraction
`now - recorded` compared to the delay, so after the millisecond clock
wraps the computed elapsed duration is still the correct small
non-negative value. -/
theorem c9_wraparound_elapsed_correct (t0 t1 : Nat) (hle : t0 ≤ t1)
    (hlt : t1 - t0 < 2 ^ 32) :
    usub32 (t1 % 2 ^ 32) (t0 % 2 ^ 32) = t1 - t0 ∧
    (∀ d : Nat,
      ((NonBlockingDelay.mk d (t0 % 2 ^ 32) true).elapsed (t1 % 2 ^ 32)).2 = true ↔
        d ≤ t1 - t0) ∧
    (∀ s : MotionMotors, s.isAccelerating = true → s.smoothEnabled = true →
      s.lastAccelUpdateTime = t0 % 2 ^ 32 → t1 - t0 < SMOOTH_ACCEL_DELAY →
      s.updateAcceleration (t1 % 2 ^ 32) = (s, [])) ∧
    (∀ ts : TelemetryState, ts.enabled = true → ts.dataChanged = true →
      ts.lastSendTime = t0 % 2 ^ 32 →
      ((Telemetry.send ts (t1 % 2 ^ 32)).2.isSome ↔ ts.interval ≤ t1 - t0)) := by
  have key := usub32_elapsed t0 t1 hle hlt
  refine ⟨key, ?_, ?_, ?_⟩
  · intro d
    simp only [NonBlockingDelay.elapsed, key]
    split
    · simp_all
    · split <;> simp_all
  · intro s hacc hsm hlast hgate
    unfold MotionMotors.updateAcceleration
    rw [if_neg (by simp [hacc, hsm])]
    rw [hlast, key]
    rw [if_pos hgate]
  · intro ts hen hch hlast
    unfold Telemetry.send
    rw [if_neg (by simp [hen]), hlast, key]
    constructor
    · intro hs
      by_contra hno
      rw [if_neg (by tauto)] at hs
      simp at hs
    · intro hdue
      rw [if_pos ⟨hdue, hch⟩]
      rfl

/-- C9 witness: a concrete wraparound, recorded just before the 32-bit
clock wraps and polled just after: the computed elapsed time is 20. -/
theorem c9_wraparound_elapsed_correct_witness :
    usub32 ((2 ^ 32 + 10) % 2 ^ 32) ((2 ^ 32 - 10) % 2 ^ 32) = 20 := by
  have h := (c9_wraparound_elapsed_correct (2 ^ 32 - 10) (2 ^ 32 + 10)
    (by norm_num) (by norm_num)).1
  simpa using h

/-- C7: Telemetry::send emits a record exactly when telemetry is
enabled, at least the interval has elapsed since the last send, and the
dirty flag is set; it then clears the dirty flag, records the send time
and emits the latest snapshot; in every other case it emits nothing and
changes no state. -/
theorem c7_telemetry_send_gating (s : TelemetryState) (now : Nat) :
    (s.enabled = true → s.interval ≤ usub32 now s.lastSendTime →
      s.dataChanged = true →
      Telemetry.send s now =
        ({ s with lastSendTime := now, dataChanged := false }, some s.data)) ∧
    (¬ (s.enabled = true ∧ s.interval ≤ usub32 now s.lastSendTime ∧
        s.dataChanged = true) →
      Telemetry.send s now = (s, none)) := by
  constructor
  · intro hen hdue hch
    unfold Telemetry.send
    rw [if_neg (by simp [hen]), if_pos ⟨hdue, hch⟩]
  · intro hno
    unfold Telemetry.send
    by_cases hen : s.enabled = false
    · rw [if_pos hen]
    · rw [if_neg hen, if_neg (by simp at hen; tauto)]

/-- C7 witness: with enabled telemetry, a dirty flag, interval 100 and
100 ms elapsed, exactly one record — the stored snapshot — is emitted
and the state is re-armed. -/
theorem c7_telemetry_send_gating_witness :
    letI d : TelemetryData :=
      { leftMotorPower := 7, rightMotorPower := 9, leftMotorForward := true,
        rightMotorForward := false, leftCalibration := 1, rightCalibration := 1,
        batteryVoltage := 0, isAccelerating := false, smoothEnabled := true,
        timestamp := 42 }
    letI s : TelemetryState :=
      { data := d, lastSendTime := 0, interval := 100, enabled := true,
        dataChanged := true }
    Telemetry.send s 100 =
      ({ s with lastSendTime := 100, dataChanged := false }, some d) := by
  exact (c7_telemetry_send_gating _ 100).1 rfl (by decide) rfl

/-- Helper: an update with arguments equal to the stored snapshot leaves
the telemetry state untouched. -/
theorem telemetry_update_noop (s : TelemetryState) (a : TelemetryArgs)
    (t : Nat)
    (heq : s.data.leftMotorPower = a.leftPower ∧
           s.data.rightMotorPower = a.rightPower ∧
           s.data.leftMotorForward = a.leftForward ∧
           s.data.rightMotorForward = a.rightForward ∧
           s.data.leftCalibration = a.leftCal ∧
           s.data.rightCalibration = a.rightCal ∧
           s.data.isAccelerating = a.accel ∧
           s.data.smoothEnabled = a.smooth) :
    Telemetry.update s a t = s := by
  obtain ⟨h1, h2, h3, h4, h5, h6, h7, h8⟩ := heq
  unfold Telemetry.update
  rw [if_neg (by tauto)]

/-- Helper: after any update the eight compared snapshot fields hold the
candidate values (either they were installed or they already agreed). -/
theorem telemetry_update_sets_fields (s : TelemetryState)
    (a : TelemetryArgs) (t : Nat) :
    (Telemetry.update s a t).data.leftMotorPower = a.leftPower ∧
    (Telemetry.update s a t).data.rightMotorPower = a.rightPower ∧
    (Telemetry.update s a t).data.leftMotorForward = a.leftForward ∧
    (Telemetry.update s a t).data.rightMotorForward = a.rightForward ∧
    (Telemetry.update s a t).data.leftCalibration = a.leftCal ∧
    (Telemetry.update s a t).data.rightCalibration = a.rightCal ∧
    (Telemetry.update s a t).data.isAccelerating = a.accel ∧
    (Telemetry.update s a t).data.smoothEnabled = a.smooth := by
  unfold Telemetry.update
  split
  · simp
  · rename_i h
    push_neg at h
    simpa using h

/-- C8: Telemetry::update with arguments equal to the stored snapshot is
a no-op (snapshot, timestamp and dirty flag unchanged); the second of
two identical update calls is the identity on the telemetry state, so
two identical calls raise the dirty flag at most once, with no
timestamp churn. -/
theorem c8_telemetry_update_idempotent (s : TelemetryState)
    (a : TelemetryArgs) (t1 t2 : Nat) :
    (s.data.leftMotorPower = a.leftPower ∧
     s.data.rightMotorPower = a.rightPower ∧
     s.data.leftMotorForward = a.leftForward ∧
     s.data.rightMotorForward = a.rightForward ∧
     s.data.leftCalibration = a.leftCal ∧
     s.data.rightCalibration = a.rightCal ∧
     s.data.isAccelerating = a.accel ∧
     s.data.smoothEnabled = a.smooth →
       Telemetry.update s a t1 = s) ∧
    Telemetry.update (Telemetry.update s a t1) a t2 = Telemetry.update s a t1 := by
  constructor
  · exact telemetry_update_noop s a t1
  · exact telemetry_update_noop _ a t2 (telemetry_update_sets_fields s a t1)

/-- C8 witness: a concrete no-op update on a snapshot that already holds
the same eight fields. -/
theorem c8_telemetry_update_idempotent_witness :
    letI d : TelemetryData :=
      { leftMotorPower := 7, rightMotorPower := 9, leftMotorForward := true,
        rightMotorForward := false, leftCalibration := 1, rightCalibration := 1,
        batteryVoltage := 0, isAccelerating := false, smoothEnabled := true,
        timestamp := 42 }
    letI s : TelemetryState :=
      { data := d, lastSendTime := 0, interval := 100, enabled := true,
        dataChanged := false }
    letI a : TelemetryArgs :=
      { leftPower := 7, rightPower := 9, leftForward := true,
        rightForward := false, leftCal := 1, rightCal := 1,
        accel := false, smooth := true }
    Telemetry.update s a 5 = s := by
  exact (c8_telemetry_update_idempotent _ _ 5 5).1
    ⟨rfl, rfl, rfl, rfl, rfl, rfl, rfl, rfl⟩

/-- C4: on the updateAcceleration poll whose incremented step reaches or
exceeds _totalAccelSteps, every channel whose target direction is not
Stopped is driven with exactly its target direction and exact target
power, and _isAccelerating becomes false. -/
theorem c4_final_step_exact_target (s : MotionMotors) (now : Nat)
    (hacc : s.isAccelerating = true) (hsm : s.smoothEnabled = true)
    (hgate : SMOOTH_ACCEL_DELAY ≤ usub32 now s.lastAccelUpdateTime)
    (hfin : s.totalAccelSteps ≤ s.currentAccelStep + 1) :
    (s.updateAcceleration now).1.isAccelerating = false ∧
    (s.leftTargetDirection ≠ .stopped →
      (s.updateAcceleration now).1.leftMotor.direction = s.leftTargetDirection ∧
      (s.updateAcceleration now).1.leftMotor.power = s.leftTargetPower) ∧
    (s.rightTargetDirection ≠ .stopped →
      (s.updateAcceleration now).1.rightMotor.direction = s.rightTargetDirection ∧
      (s.updateAcceleration now).1.rightMotor.power = s.rightTargetPower) := by
  have hng : ¬ usub32 now s.lastAccelUpdateTime < SMOOTH_ACCEL_DELAY :=
    not_lt.mpr hgate
  unfold MotionMotors.updateAcceleration
  rw [if_neg (by simp [hacc, hsm]), if_neg hng, if_pos hfin]
  refine ⟨rfl, ?_, ?_⟩
  · intro hl
    cases h : s.leftTargetDirection <;>
      simp [driveDir, Motor.forward, Motor.backward, h] at hl ⊢
  · intro hr
    cases h : s.rightTargetDirection <;>
      simp [driveDir, Motor.forward, Motor.backward, h] at hr ⊢

/-- C4 witness: a ramp at step 9 of 10 toward (Forward, 200) on the left
channel; the due poll at t = 20 drives exactly (Forward, 200) and ends
the ramp. -/
theorem c4_final_step_exact_target_witness :
    letI s : MotionMotors :=
      { MotionMotors.init 1 1 with
          leftMotor := { direction := .forward, power := 180, calibration := 1 },
          isAccelerating := true, currentAccelStep := 9, totalAccelSteps := 10,
          leftTargetDirection := .forward, leftTargetPower := 200 }
    (s.updateAcceleration 20).1.isAccelerating = false ∧
    (s.updateAcceleration 20).1.leftMotor.direction = MotorDirection.forward ∧
    (s.updateAcceleration 20).1.leftMotor.power = 200 := by
  have h := c4_final_step_exact_target
    { MotionMotors.init 1 1 with
        leftMotor := { direction := .forward, power := 180, calibration := 1 },
        isAccelerating := true, currentAccelStep := 9, totalAccelSteps := 10,
        leftTargetDirection := .forward, leftTargetPower := 200 }
    20 rfl rfl (by decide) (by decide)
  exact ⟨h.1, (h.2.1 (by decide)).1, (h.2.1 (by decide)).2⟩

/-- C10: every smooth single-channel operation forces the other
ramp target of the other channel to (Stopped, 0), and the shared ramp stepper never
touches a channel whose target direction is Stopped: its motor state is
left exactly as last actuated and no actuation is emitted for it. -/
theorem c10_smooth_ops_idle_other_channel (s : MotionMotors)
    (hs : s.smoothEnabled = true) :
    (∀ dir p steps now,
      ((s.smoothAccelerate .left dir p steps now).1.rightTargetDirection = .stopped ∧
       (s.smoothAccelerate .left dir p steps now).1.rightTargetPower = 0) ∧
      ((s.smoothAccelerate .right dir p steps now).1.leftTargetDirection = .stopped ∧
       (s.smoothAccelerate .right dir p steps now).1.leftTargetPower = 0) ∧
      ((s.smoothDecelerate .left dir p steps now).1.rightTargetDirection = .stopped ∧
       (s.smoothDecelerate .left dir p steps now).1.rightTargetPower = 0) ∧
      ((s.smoothDecelerate .right dir p steps now).1.leftTargetDirection = .stopped ∧
       (s.smoothDecelerate .right dir p steps now).1.leftTargetPower = 0) ∧
      ((s.smoothTransition .left dir p steps now).1.rightTargetDirection = .stopped ∧
       (s.smoothTransition .left dir p steps now).1.rightTargetPower = 0) ∧
      ((s.smoothTransition .right dir p steps now).1.leftTargetDirection = .stopped ∧
       (s.smoothTransition .right dir p steps now).1.leftTargetPower = 0)) ∧
    (∀ (u : MotionMotors) (now : Nat), u.rightTargetDirection = .stopped →
      (u.updateAcceleration now).1.rightMotor = u.rightMotor ∧
      ∀ a ∈ (u.updateAcceleration now).2, a.side = Side.left) ∧
    (∀ (u : MotionMotors) (now : Nat), u.leftTargetDirection = .stopped →
      (u.updateAcceleration now).1.leftMotor = u.leftMotor ∧
      ∀ a ∈ (u.updateAcceleration now).2, a.side = Side.right) := by
  refine ⟨?_, ?_, ?_⟩
  · intro dir p steps now
    refine ⟨⟨?_, ?_⟩, ⟨?_, ?_⟩, ⟨?_, ?_⟩, ⟨?_, ?_⟩, ⟨?_, ?_⟩, ⟨?_, ?_⟩⟩ <;>
      simp [MotionMotors.smoothAccelerate, MotionMotors.smoothDecelerate,
            MotionMotors.smoothTransition, MotionMotors.setTargets, hs]
  · intro u now hr
    simp only [MotionMotors.updateAcceleration]
    split_ifs <;> simp [hr, driveDir, tag] <;>
      rintro a x y - rfl <;> rfl
  · intro u now hl
    simp only [MotionMotors.updateAcceleration]
    split_ifs <;> simp [hl, driveDir, tag] <;>
      rintro a x y - rfl <;> rfl

/-- C10 witness: a smooth left accelerate on a state whose right channel
is mid-ramp zeroes the right target, and the next due poll leaves the
right motor exactly as it was. -/
theorem c10_smooth_ops_idle_other_channel_witness :
    letI s : MotionMotors :=
      { MotionMotors.init 1 1 with
          rightMotor := { direction := .forward, power := 120, calibration := 1 },
          isAccelerating := true, currentAccelStep := 4, totalAccelSteps := 10,
          rightTargetDirection := .forward, rightTargetPower := 240 }
    letI a := (s.smoothAccelerate .left .forward 200 10 0).1
    a.rightTargetDirection = MotorDirection.stopped ∧
    a.rightTargetPower = 0 ∧
    (a.updateAcceleration 20).1.rightMotor = a.rightMotor := by
  have h := c10_smooth_ops_idle_other_channel
    { MotionMotors.init 1 1 with
        rightMotor := { direction := .forward, power := 120, calibration := 1 },
        isAccelerating := true, currentAccelStep := 4, totalAccelSteps := 10,
        rightTargetDirection := .forward, rightTargetPower := 240 } rfl
  exact ⟨((h.1 .forward 200 10 0).1).1, ((h.1 .forward 200 10 0).1).2,
    (h.2.1 _ 20 ((h.1 .forward 200 10 0).1).1).1⟩

/-- C1 (refuting evaluation): stop-all during an in-progress ramp, with
smoothing enabled and the left motor running Forward at power 100,
leaves the left motor at power 100 / direction Forward — not 0 /
Stopped.  stop() routes the channel through smoothDecelerate, which
only records a Stopped ramp target without actuating, and then clears
_isAccelerating, so the queued decel never runs and the motor is never
re-actuated to zero; subsequent polls are no-ops. -/
theorem c1_stop_all_leaves_motor_running :
    letI s : MotionMotors :=
      { MotionMotors.init 1 1 with
          leftMotor := { direction := .forward, power := 100, calibration := 1 },
          isAccelerating := true, currentAccelStep := 3, totalAccelSteps := 10,
          leftTargetDirection := .forward, leftTargetPower := 200 }
    letI r := s.stop 0
    r.1.leftMotor.power = 100 ∧
    r.1.leftMotor.direction = MotorDirection.forward ∧
    r.1.isAccelerating = false ∧
    r.1.updateAcceleration 1000 = (r.1, []) := by
  refine ⟨?_, ?_, ?_, ?_⟩ <;>
    simp [MotionMotors.init, Motor.init, MotionMotors.stop,
          MotionMotors.leftStop, MotionMotors.rightStop,
          MotionMotors.smoothDecelerate, MotionMotors.setTargets,
          Motor.stop, tag, MotionMotors.updateAcceleration,
          SMOOTH_ACCEL_STEPS]

/-- C2 (refuting evaluation): a smooth direction change (left motor
Forward at 200, commanded leftBackward 150 with smoothing on) does emit
the intermediate stop, but ends the call with _totalAccelSteps equal to
the plain default SMOOTH_ACCEL_STEPS, not default + 2: the
`_totalAccelSteps += 2` at line 349 is overwritten by the
`_totalAccelSteps = params.steps` at line 366. -/
theorem c2_transition_overwrites_pause_steps :
    letI s : MotionMotors :=
      { MotionMotors.init 1 1 with
          leftMotor := { direction := .forward, power := 200, calibration := 1 } }
    letI r := s.leftBackward 150 true 0
    r.2 = [{ side := Side.left, fwd := 0, bwd := 0 }] ∧
    r.1.totalAccelSteps = SMOOTH_ACCEL_STEPS ∧
    SMOOTH_ACCEL_STEPS ≠ SMOOTH_ACCEL_STEPS + 2 := by
  refine ⟨?_, ?_, by decide⟩ <;>
    simp [MotionMotors.init, Motor.init, MotionMotors.leftBackward,
          MotionMotors.smoothTransition, MotionMotors.setTargets,
          MotionMotors.setMotor, MotionMotors.motorOf, Motor.stop, tag,
          SMOOTH_ACCEL_STEPS]

/-- C5 (refuting evaluation): a decelerate-path ramp (left motor Forward
at 200, commanded leftForward 100 with smoothing on, polled at 20 ms
intervals) actuates the strictly increasing power sequence
10, 20, ..., 90, 100 — the intermediate formula targetPower*progress
interpolates from 0 toward the target, so polled powers are not
non-increasing; the power first plunges to 10 and then climbs. -/
theorem c5_decelerate_ramp_powers_increase :
    letI s : MotionMotors :=
      { MotionMotors.init 1 1 with
          leftMotor := { direction := .forward, power := 200, calibration := 1 } }
    letI r := runPolls ((s.leftForward 100 true 0).1)
        [20, 40, 60, 80, 100, 120, 140, 160, 180, 200]
    r.2.map Actuation.fwd = [10, 20, 30, 40, 50, 60, 70, 80, 90, 100] ∧
    r.2.map Actuation.bwd = [0, 0, 0, 0, 0, 0, 0, 0, 0, 0] ∧
    ¬ List.Chain' (fun a b => b ≤ a) (r.2.map Actuation.fwd) := by
  refine ⟨?_, ?_, ?_⟩ <;>
    simp [MotionMotors.init, Motor.init, MotionMotors.leftForward,
          MotionMotors.smoothDecelerate, MotionMotors.setTargets, runPolls,
          MotionMotors.updateAcceleration, usub32, SMOOTH_ACCEL_DELAY,
          SMOOTH_ACCEL_STEPS, driveDir, Motor.forward, calibratedPower_one,
          tag, List.chain'_cons]

/-- Helper: the neutral clamp. -/
theorem constrain01_one : constrain01 1 = 1 := by
  norm_num [constrain01]

/-- Helper: every pin write driveDir produces has a zero component. -/
theorem mem_tag_driveDir (side : Side) (m : Motor) (dir : MotorDirection)
    (p : Nat) :
    ∀ a ∈ ((driveDir m dir p).2.map (tag side)), a.fwd = 0 ∨ a.bwd = 0 := by
  cases dir <;> simp [driveDir, Motor.forward, Motor.backward, tag]

/-- Helper: every actuation smoothAccelerate emits has a zero component. -/
theorem smoothAccelerate_events_zero (s : MotionMotors) (side : Side)
    (dir : MotorDirection) (p steps now : Nat) :
    ∀ a ∈ (s.smoothAccelerate side dir p steps now).2,
      a.fwd = 0 ∨ a.bwd = 0 := by
  simp only [MotionMotors.smoothAccelerate]
  split_ifs <;>
    first
      | exact mem_tag_driveDir side (s.motorOf side) dir p
      | simp

/-- Helper: every actuation smoothDecelerate emits has a zero component. -/
theorem smoothDecelerate_events_zero (s : MotionMotors) (side : Side)
    (dir : MotorDirection) (p steps now : Nat) :
    ∀ a ∈ (s.smoothDecelerate side dir p steps now).2,
      a.fwd = 0 ∨ a.bwd = 0 := by
  simp only [MotionMotors.smoothDecelerate]
  split_ifs <;>
    first
      | exact mem_tag_driveDir side (s.motorOf side) dir p
      | simp [Motor.stop, tag]

/-- Helper: every actuation smoothTransition emits has a zero component. -/
theorem smoothTransition_events_zero (s : MotionMotors) (side : Side)
    (dir : MotorDirection) (p steps now : Nat) :
    ∀ a ∈ (s.smoothTransition side dir p steps now).2,
      a.fwd = 0 ∨ a.bwd = 0 := by
  simp only [MotionMotors.smoothTransition]
  split_ifs <;> (try cases dir) <;>
    first
      | exact mem_tag_driveDir side (s.motorOf side) .forward p
      | exact mem_tag_driveDir side (s.motorOf side) .backward p
      | simp [Motor.stop, tag]

/-- Helper: every actuation the ramp stepper emits has a zero
component. -/
theorem updateAcceleration_events_zero (s : MotionMotors) (now : Nat) :
    ∀ a ∈ (s.updateAcceleration now).2, a.fwd = 0 ∨ a.bwd = 0 := by
  simp only [MotionMotors.updateAcceleration]
  split_ifs <;>
    first
      | (intro a ha
         rcases List.mem_append.mp ha with h | h
         exacts [mem_tag_driveDir .left _ _ _ a h,
                 mem_tag_driveDir .right _ _ _ a h])
      | simp

/-- Helper: every actuation leftStop emits has a zero component. -/
theorem leftStop_events_zero (s : MotionMotors) (t : Nat) :
    ∀ a ∈ (s.leftStop t).2, a.fwd = 0 ∨ a.bwd = 0 := by
  simp only [MotionMotors.leftStop]
  split_ifs <;>
    first
      | apply smoothDecelerate_events_zero
      | simp [Motor.stop, tag]

/-- Helper: every actuation rightStop emits has a zero component. -/
theorem rightStop_events_zero (s : MotionMotors) (t : Nat) :
    ∀ a ∈ (s.rightStop t).2, a.fwd = 0 ∨ a.bwd = 0 := by
  simp only [MotionMotors.rightStop]
  split_ifs <;>
    first
      | apply smoothDecelerate_events_zero
      | simp [Motor.stop, tag]

/-- Helper: every actuation any public control call emits has a zero
component: the engine never writes both windings nonzero in one
actuation. -/
theorem stepCmd_events_zero (s : MotionMotors) (c : Cmd) (t : Nat) :
    ∀ a ∈ (stepCmd s c t).2, a.fwd = 0 ∨ a.bwd = 0 := by
  cases c <;> simp only [stepCmd, MotionMotors.leftForward,
    MotionMotors.leftBackward, MotionMotors.rightForward,
    MotionMotors.rightBackward, MotionMotors.leftStop,
    MotionMotors.rightStop, MotionMotors.stop,
    MotionMotors.setSmoothEnabled]
  case leftForward p sm =>
    split_ifs <;>
      first
        | apply smoothAccelerate_events_zero
        | apply smoothDecelerate_events_zero
        | apply smoothTransition_events_zero
        | simp [Motor.forward, tag]
  case leftBackward p sm =>
    split_ifs <;>
      first
        | apply smoothAccelerate_events_zero
        | apply smoothDecelerate_events_zero
        | apply smoothTransition_events_zero
        | simp [Motor.backward, tag]
  case rightForward p sm =>
    split_ifs <;>
      first
        | apply smoothAccelerate_events_zero
        | apply smoothDecelerate_events_zero
        | apply smoothTransition_events_zero
        | simp [Motor.forward, tag]
  case rightBackward p sm =>
    split_ifs <;>
      first
        | apply smoothAccelerate_events_zero
        | apply smoothDecelerate_events_zero
        | apply smoothTransition_events_zero
        | simp [Motor.backward, tag]
  case leftStop =>
    split_ifs <;>
      first
        | apply smoothDecelerate_events_zero
        | simp [Motor.stop, tag]
  case rightStop =>
    split_ifs <;>
      first
        | apply smoothDecelerate_events_zero
        | simp [Motor.stop, tag]
  case stopAll =>
    intro a ha
    rcases List.mem_append.mp ha with h | h
    · exact leftStop_events_zero s t a h
    · exact rightStop_events_zero _ t a h
  case setSmoothEnabled b => simp
  case poll => exact updateAcceleration_events_zero s t

/-- Helper: over any run of control calls, every actuation has a zero
component. -/
theorem run_events_zero (cmds : List (Cmd × Nat)) :
    ∀ s : MotionMotors, ∀ a ∈ (run s cmds).2, a.fwd = 0 ∨ a.bwd = 0 := by
  induction cmds with
  | nil => intro s a ha; simp [run] at ha
  | cons c cs ih =>
    intro s a ha
    simp only [run] at ha
    rcases List.mem_append.mp ha with h | h
    · exact stepCmd_events_zero s c.1 c.2 a h
    · exact ih _ a h

/-- C3 counterexample: with the immediate (non-smooth) path, a channel
driven Forward then commanded Backward receives the writes
(100, 0) then (0, 50) with no all-zero actuation in between, so the
claim that a stop occurs between the last forward and the first
backward actuation, smooth or immediate, fails. -/
theorem c3_immediate_reversal_no_stop_between :
    letI r := run (MotionMotors.init 1 1)
        [(Cmd.leftForward 100 false, 0), (Cmd.leftBackward 50 false, 5)]
    r.2 = [{ side := Side.left, fwd := 100, bwd := 0 },
           { side := Side.left, fwd := 0, bwd := 50 }] ∧
    ¬ stopsBetweenReversals
        [{ side := Side.left, fwd := 100, bwd := 0 },
         { side := Side.left, fwd := 0, bwd := 50 }] Side.left := by
  unfold stopsBetweenReversals
  constructor
  · simp [run, stepCmd, MotionMotors.init, Motor.init,
          MotionMotors.leftForward, MotionMotors.leftBackward,
          Motor.forward, Motor.backward, calibratedPower_one, tag,
          constrain01_one]
  · decide

/-- C3 amended: (i) in every sequence of control calls the hardware sink
never receives forward and backward magnitudes simultaneously nonzero —
each actuation has at least one zero magnitude; (ii) when the reversal
is commanded through the smooth path (smooth request with smoothing
enabled) the commanding call itself emits exactly one all-zero stop
actuation on the channel, before any backward ramp actuation of later
polls; in the immediate path the sink goes directly from (f,0) to (0,b)
with no intermediate stop. -/
theorem c3_reversal_safety_amended (s : MotionMotors) :
    (∀ cmds, ∀ a ∈ (run s cmds).2, a.fwd = 0 ∨ a.bwd = 0) ∧
    (∀ p now, s.smoothEnabled = true →
      s.leftMotor.direction = MotorDirection.forward →
      (s.leftBackward p true now).2 =
        [{ side := Side.left, fwd := 0, bwd := 0 }]) ∧
    (∀ p now, s.smoothEnabled = true →
      s.rightMotor.direction = MotorDirection.forward →
      (s.rightBackward p true now).2 =
        [{ side := Side.right, fwd := 0, bwd := 0 }]) := by
  refine ⟨fun cmds => run_events_zero cmds s, ?_, ?_⟩
  · intro p now hs hdir
    simp [MotionMotors.leftBackward, hs, hdir,
          MotionMotors.smoothTransition, MotionMotors.motorOf,
          MotionMotors.setMotor, MotionMotors.setTargets, Motor.stop, tag]
  · intro p now hs hdir
    simp [MotionMotors.rightBackward, hs, hdir,
          MotionMotors.smoothTransition, MotionMotors.motorOf,
          MotionMotors.setMotor, MotionMotors.setTargets, Motor.stop, tag]

/-- C3 amended witness: on a state whose left motor runs Forward at 100
with smoothing on, the smooth backward command emits exactly the
all-zero stop actuation. -/
theorem c3_reversal_safety_amended_witness :
    letI s : MotionMotors :=
      { MotionMotors.init 1 1 with
          leftMotor := { direction := .forward, power := 100, calibration := 1 } }
    (s.leftBackward 50 true 0).2 =
      [{ side := Side.left, fwd := 0, bwd := 0 }] := by
  exact (c3_reversal_safety_amended
    { MotionMotors.init 1 1 with
        leftMotor := { direction := .forward, power := 100,
                       calibration := 1 } }).2.1 50 0 rfl rfl

end Tank
